import Mathlib

/-!
A shallow embedding of `src/main.py`.

This file models the data and the operations of the SageMaker training
launcher script and proves the specification's testable properties about
them.  Python dictionaries become association lists, Python strings become
Lean strings, machine effects (filesystem, registry responses, docker push
streams, the process environment) become explicit parameters, and fallible
Python code returns `Except`.
-/

/-- The Python exceptions the script can raise, as one error type.
`valueError` is the unpack failure of `a, b = s.split(":")`;
`validationError` is pydantic's settings-validation failure, carrying the
names of the missing fields. -/
inductive PyErr where
  | ecrLoginError (msg : String)
  | valueError
  | indexError
  | runtimeError (msg : String)
  | validationError (missing : List String)
  | fileNotFoundError
  | tarCreateError
  | uploadError
deriving DecidableEq, Repr

/-- Whether an `Except` result is a success. -/
def exceptOk {ε α : Type} : Except ε α → Bool
  | .ok _ => true
  | .error _ => false

/-! ## JSON values and `json.dumps`

`json_encode_hyperparameters` serializes every hyperparameter value with
`json.dumps`.  `PyJson` is the JSON-representable Python values: `None`,
`bool`, `int`, `str`, `list`, `dict` with string keys.  (Floats are outside
the model: their textual form has no exact Lean counterpart.)  Lean's
`Char` carries exactly the Unicode scalar values, so `pyStr` covers every
valid (surrogate-free) Python string. -/
inductive PyJson where
  | pyNone
  | pyBool (b : Bool)
  | pyInt (n : Int)
  | pyStr (s : String)
  | pyList (items : List PyJson)
  | pyDict (entries : List (String × PyJson))

/-- The lowercase hexadecimal digit for `n % 16`, as `json.dumps` prints
`\uXXXX` escapes. -/
def hexDig (n : Nat) : Char :=
  if n < 10 then Char.ofNat (48 + n % 16) else Char.ofNat (87 + n % 16)

/-- Four lowercase hex digits of `n < 0x10000`, most significant first. -/
def hex4 (n : Nat) : List Char :=
  [hexDig (n / 4096 % 16), hexDig (n / 256 % 16), hexDig (n / 16 % 16), hexDig (n % 16)]

/-- One character of a Python string as `json.dumps` (default
`ensure_ascii=True`) emits it: the two-character escapes for quote,
backslash and the five short control escapes; printable ASCII verbatim;
everything else as `\uXXXX`, using a surrogate pair above `0xFFFF`. -/
def escChar (c : Char) : List Char :=
  if c = '\\' then ['\\', '\\']
  else if c = '"' then ['\\', '"']
  else if c.toNat = 8 then ['\\', 'b']
  else if c.toNat = 9 then ['\\', 't']
  else if c.toNat = 10 then ['\\', 'n']
  else if c.toNat = 12 then ['\\', 'f']
  else if c.toNat = 13 then ['\\', 'r']
  else if 32 ≤ c.toNat ∧ c.toNat ≤ 126 then [c]
  else if c.toNat < 65536 then '\\' :: 'u' :: hex4 c.toNat
  else
    let v := c.toNat - 65536
    ('\\' :: 'u' :: hex4 (55296 + v / 1024)) ++ ('\\' :: 'u' :: hex4 (56320 + v % 1024))

/-- The serialized form of a Python string: quoted, every character escaped
per `escChar`. -/
def dumpStr (s : String) : List Char :=
  '"' :: (s.toList.flatMap escChar ++ ['"'])

/-- Decimal digits of `n`, most significant first, by fuel-guarded division
(`fuel > n` suffices, since `n` has at most `n + 1` digits). -/
def natCharsAux : Nat → Nat → List Char
  | 0, _ => []
  | fuel + 1, n =>
      if n < 10 then [Char.ofNat (48 + n % 10)]
      else natCharsAux fuel (n / 10) ++ [Char.ofNat (48 + n % 10)]

/-- Decimal digits of `n`, most significant first. -/
def natChars (n : Nat) : List Char := natCharsAux (n + 1) n

/-- The decimal form of an integer, as Python prints it: an optional minus
sign, then the digits of its absolute value. -/
def intChars (i : Int) : List Char :=
  if i < 0 then '-' :: natChars i.natAbs else natChars i.natAbs

mutual
/-- `json.dumps` with its default separators, producing the character list
of the serialized text. -/
def dumpVal : PyJson → List Char
  | .pyNone => ['n', 'u', 'l', 'l']
  | .pyBool true => ['t', 'r', 'u', 'e']
  | .pyBool false => ['f', 'a', 'l', 's', 'e']
  | .pyInt n => intChars n
  | .pyStr s => dumpStr s
  | .pyList items => '[' :: (dumpItems items ++ [']'])
  | .pyDict entries => '{' :: (dumpEntries entries ++ ['}'])
/-- The elements of a list, joined by `", "` (the default item separator). -/
def dumpItems : List PyJson → List Char
  | [] => []
  | [x] => dumpVal x
  | x :: y :: rest => dumpVal x ++ ',' :: ' ' :: dumpItems (y :: rest)
/-- The entries of a dict, each `key": "value`, joined by `", "`. -/
def dumpEntries : List (String × PyJson) → List Char
  | [] => []
  | [(k, v)] => dumpStr k ++ ':' :: ' ' :: dumpVal v
  | (k, v) :: e :: rest =>
      (dumpStr k ++ ':' :: ' ' :: dumpVal v) ++ ',' :: ' ' :: dumpEntries (e :: rest)
end

/-- `json.dumps` as a string-valued function. -/
def dumps (v : PyJson) : String := String.mk (dumpVal v)

/-- `json_encode_hyperparameters` from `src/main.py`: serialize every value
with `json.dumps`.  The source writes the keys through `str(k)`, which is
the identity here because the declared type `dict[str, Any]` makes every
key a string already. -/
def json_encode_hyperparameters (hp : List (String × PyJson)) : List (String × String) :=
  hp.map (fun kv => (kv.1, dumps kv.2))

/-! ## A JSON deserializer

The spec's round-trip law is about "the receiving system's expected
deserialization", which is not part of the script; the parser below models
standard JSON deserialization (`json.loads`) for the values `PyJson`
covers.  It is total (fuel-guarded where the grammar recurses), skips the
four JSON whitespace characters between tokens, decodes every escape
`json.dumps` can emit — recombining surrogate pairs, as Python's scanner
does — and rejects what the grammar rejects: lone surrogate escapes and
raw control characters in strings, float syntax, trailing input. -/

/-- The four whitespace characters JSON permits between tokens. -/
def jsonWs (c : Char) : Bool := c = ' ' || c = '\t' || c = '\n' || c = '\r'

/-- Drop leading JSON whitespace. -/
def dropWs : List Char → List Char
  | [] => []
  | c :: cs => if jsonWs c then dropWs cs else c :: cs

/-- A decimal digit? -/
def isDig (c : Char) : Bool := 48 ≤ c.toNat && c.toNat ≤ 57

/-- Split a leading run of decimal digits off the input. -/
def grabDigits : List Char → List Char × List Char
  | [] => ([], [])
  | c :: cs =>
      if isDig c then
        let p := grabDigits cs
        (c :: p.1, p.2)
      else ([], c :: cs)

/-- The number a digit run denotes. -/
def digitsVal (ds : List Char) : Nat :=
  ds.foldl (fun a c => 10 * a + (c.toNat - 48)) 0

/-- The value of one hexadecimal digit (either case). -/
def hexDigVal (c : Char) : Option Nat :=
  if 48 ≤ c.toNat ∧ c.toNat ≤ 57 then some (c.toNat - 48)
  else if 97 ≤ c.toNat ∧ c.toNat ≤ 102 then some (c.toNat - 87)
  else if 65 ≤ c.toNat ∧ c.toNat ≤ 70 then some (c.toNat - 55)
  else none

/-- The value of a four-hex-digit escape body. -/
def hex4Val (a b c d : Char) : Option Nat :=
  match hexDigVal a, hexDigVal b, hexDigVal c, hexDigVal d with
  | some va, some vb, some vc, some vd => some (((va * 16 + vb) * 16 + vc) * 16 + vd)
  | _, _, _, _ => none

/-- The character a two-character escape denotes (`\u` handled separately). -/
def escDecode : Char → Option Char
  | '"' => some '"'
  | '\\' => some '\\'
  | '/' => some '/'
  | 'b' => some (Char.ofNat 8)
  | 't' => some '\t'
  | 'n' => some '\n'
  | 'f' => some (Char.ofNat 12)
  | 'r' => some '\r'
  | _ => none

/-- Scan a string body after its opening quote: the decoded characters and
the input after the closing quote.  A `\uXXXX` escape naming a high
surrogate must be followed by a low one; the pair decodes to one scalar,
exactly inverting the pairs `escChar` emits.  (Python's scanner would keep
a truly lone surrogate; Lean's `Char` cannot, and `json.dumps` of a valid
Unicode string never produces one, so the parser rejects it instead.) -/
def scanStr : List Char → Option (List Char × List Char)
  | [] => none
  | '"' :: rest => some ([], rest)
  | '\\' :: 'u' :: a :: b :: c :: d :: rest =>
      match hex4Val a b c d with
      | none => none
      | some n =>
          if 55296 ≤ n ∧ n < 56320 then
            match rest with
            | '\\' :: 'u' :: a2 :: b2 :: c2 :: d2 :: rest2 =>
                match hex4Val a2 b2 c2 d2 with
                | none => none
                | some m =>
                    if 56320 ≤ m ∧ m < 57344 then
                      match scanStr rest2 with
                      | none => none
                      | some (cs, r) =>
                          some (Char.ofNat (65536 + (n - 55296) * 1024 + (m - 56320)) :: cs, r)
                    else none
            | _ => none
          else if 56320 ≤ n ∧ n < 57344 then none
          else
            match scanStr rest with
            | none => none
            | some (cs, r) => some (Char.ofNat n :: cs, r)
  | '\\' :: e :: rest =>
      match escDecode e with
      | none => none
      | some ch =>
          match scanStr rest with
          | none => none
          | some (cs, r) => some (ch :: cs, r)
  | c :: rest =>
      if c.toNat < 32 then none
      else
        match scanStr rest with
        | none => none
        | some (cs, r) => some (c :: cs, r)

mutual
/-- Parse one JSON value (after whitespace), returning it with the
unconsumed input.  Fuel only guards the nesting recursion; any fuel beyond
the input length is enough.  (Numbers are the integer subset: a fractional
part or exponent makes the surrounding parse fail, as `PyJson` has no
floats.  Leading zeros are not rejected, a divergence from strict JSON on
inputs `json.dumps` never emits.) -/
def readVal : Nat → List Char → Option (PyJson × List Char)
  | 0, _ => none
  | fuel + 1, input =>
      match dropWs input with
      | 'n' :: 'u' :: 'l' :: 'l' :: r => some (.pyNone, r)
      | 't' :: 'r' :: 'u' :: 'e' :: r => some (.pyBool true, r)
      | 'f' :: 'a' :: 'l' :: 's' :: 'e' :: r => some (.pyBool false, r)
      | '"' :: r =>
          match scanStr r with
          | none => none
          | some (cs, r2) => some (.pyStr (String.mk cs), r2)
      | '[' :: r =>
          match dropWs r with
          | ']' :: r2 => some (.pyList [], r2)
          | other =>
              match readItems fuel other with
              | none => none
              | some (xs, r2) => some (.pyList xs, r2)
      | '{' :: r =>
          match dropWs r with
          | '}' :: r2 => some (.pyDict [], r2)
          | other =>
              match readEntries fuel other with
              | none => none
              | some (es, r2) => some (.pyDict es, r2)
      | '-' :: r =>
          match grabDigits r with
          | ([], _) => none
          | (ds, r2) => some (.pyInt (-(digitsVal ds : Int)), r2)
      | c :: r =>
          if isDig c then
            match grabDigits (c :: r) with
            | (ds, r2) => some (.pyInt (digitsVal ds), r2)
          else none
      | [] => none
/-- Parse one or more comma-separated array elements up to the closing
bracket (the empty array is handled by `readVal`). -/
def readItems : Nat → List Char → Option (List PyJson × List Char)
  | 0, _ => none
  | fuel + 1, input =>
      match readVal fuel input with
      | none => none
      | some (v, r) =>
          match dropWs r with
          | ']' :: r2 => some ([v], r2)
          | ',' :: r2 =>
              match readItems fuel (dropWs r2) with
              | none => none
              | some (vs, r3) => some (v :: vs, r3)
          | _ => none
/-- Parse one or more comma-separated object entries up to the closing
brace (the empty object is handled by `readVal`). -/
def readEntries : Nat → List Char → Option (List (String × PyJson) × List Char)
  | 0, _ => none
  | fuel + 1, input =>
      match dropWs input with
      | '"' :: r =>
          match scanStr r with
          | none => none
          | some (kcs, r1) =>
              match dropWs r1 with
              | ':' :: r2 =>
                  match readVal fuel r2 with
                  | none => none
                  | some (v, r3) =>
                      match dropWs r3 with
                      | '}' :: r4 => some ([(String.mk kcs, v)], r4)
                      | ',' :: r4 =>
                          match readEntries fuel (dropWs r4) with
                          | none => none
                          | some (es, r5) => some ((String.mk kcs, v) :: es, r5)
                      | _ => none
              | _ => none
      | _ => none
end

/-- `json.loads`: parse a complete document, requiring that nothing but
whitespace remain. -/
def loads (s : String) : Option PyJson :=
  match readVal (s.toList.length + 1) s.toList with
  | none => none
  | some (v, r) => if dropWs r = [] then some v else none

/-- `true` when the input cannot extend a digit run: empty, or headed by a
non-digit.  The separators and closers of the JSON grammar all qualify. -/
def digBreak : List Char → Bool
  | [] => true
  | c :: _ => !isDig c
/-- Prepend a decoded character to a string-scan result. -/
def consDecoded (c : Char) : Option (List Char × List Char) → Option (List Char × List Char)
  | none => none
  | some (cs, r) => some (c :: cs, r)
mutual
/-- A `PyJson` value that a Python object can denote: every dict's keys are
distinct (a Python `dict` cannot hold a key twice). -/
def wfVal : PyJson → Bool
  | .pyNone => true
  | .pyBool _ => true
  | .pyInt _ => true
  | .pyStr _ => true
  | .pyList items => wfItems items
  | .pyDict entries => wfEntries entries
/-- Well-formedness of list elements. -/
def wfItems : List PyJson → Bool
  | [] => true
  | x :: xs => wfVal x && wfItems xs
/-- Well-formedness of dict entries: the head key appears in no later
entry, and every value is well-formed. -/
def wfEntries : List (String × PyJson) → Bool
  | [] => true
  | (k, v) :: es => !((es.map Prod.fst).contains k) && wfVal v && wfEntries es
end
/-! ## The estimator configuration (`EstimatorConfig`)

`model_dump` turns the pydantic model into a fresh dict; the embedding
represents that dict as an association list over a small union of the value
types the fields carry.  `dictPop` and `dictSet` model `dict.pop` on an
always-present key and item assignment to a present key, both preserving
the order of the remaining items, as Python dicts do. -/

/-- A value of the argument dict `to_estimator_args` builds. -/
inductive ArgValue where
  | argStr (s : String)
  | argInt (n : Int)
  | argBool (b : Bool)
  | argNone
  | argJsonMap (m : List (String × PyJson))
  | argStrMap (m : List (String × String))

/-- The estimator configuration model, one field per `EstimatorConfig`
field in `src/main.py` (`max_run`/`max_wait` default to `None`). -/
structure EstimatorConfig where
  entry_point : String
  instance_count : Int
  instance_type : String
  base_job_name : String
  use_spot_instances : Bool
  max_run : Option Int := none
  max_wait : Option Int := none
  hyperparameters : List (String × PyJson)

/-- An optional-int field as `model_dump` renders it: the value, or `None`. -/
def optArg : Option Int → ArgValue
  | none => .argNone
  | some n => .argInt n

/-- `model_dump`: every field of the model under its field name, in
declaration order, in a fresh dict. -/
def EstimatorConfig.model_dump (c : EstimatorConfig) : List (String × ArgValue) :=
  [("entry_point", .argStr c.entry_point),
   ("instance_count", .argInt c.instance_count),
   ("instance_type", .argStr c.instance_type),
   ("base_job_name", .argStr c.base_job_name),
   ("use_spot_instances", .argBool c.use_spot_instances),
   ("max_run", optArg c.max_run),
   ("max_wait", optArg c.max_wait),
   ("hyperparameters", .argJsonMap c.hyperparameters)]

/-- `dict.pop` on a present key: remove its item, keep the rest in order. -/
def dictPop (d : List (String × ArgValue)) (key : String) : List (String × ArgValue) :=
  d.filter (fun kv => kv.1 ≠ key)

/-- Item assignment to a present key: replace its value in place. -/
def dictSet (d : List (String × ArgValue)) (key : String) (v : ArgValue) :
    List (String × ArgValue) :=
  d.map (fun kv => if kv.1 = key then (key, v) else kv)

/-- The hyperparameters entry of the argument dict (`args["hyperparameters"]`),
which `model_dump` always fills with the config's mapping. -/
def argsHyperparameters (d : List (String × ArgValue)) : List (String × PyJson) :=
  match d.lookup "hyperparameters" with
  | some (.argJsonMap m) => m
  | _ => []

/-- `EstimatorConfig.to_estimator_args` from `src/main.py`: dump the model,
pop both duration keys when spot instances are off, then JSON-encode the
hyperparameters entry in place. -/
def EstimatorConfig.to_estimator_args (c : EstimatorConfig) : List (String × ArgValue) :=
  let args := c.model_dump
  let args := if c.use_spot_instances then args else dictPop (dictPop args "max_run") "max_wait"
  dictSet args "hyperparameters" (.argStrMap (json_encode_hyperparameters (argsHyperparameters args)))

/-- The method again, with the state of the configuration object threaded
through explicitly: the source writes only to the dumped dict (`args`),
never to `self`, so the returned configuration is the one passed in. -/
def EstimatorConfig.to_estimator_args_run (c : EstimatorConfig) :
    List (String × ArgValue) × EstimatorConfig :=
  (c.to_estimator_args, c)

/-! ## The source packager (`create_tar_file`, C1)

A directory tree: the files directly in the directory, and the named
subdirectories.  `walk` is `os.walk` top-down; `relpath` is
`os.path.relpath` for the paths `walk` builds, which always extend the
root by `"/" ++ suffix`. -/

/-- A directory: its files and its named subdirectories. -/
inductive FsTree where
  | dir (files : List String) (subdirs : List (String × FsTree))

mutual
/-- `os.walk` from a named root, top-down: the root's entry first, then
every subdirectory's walk, in order. -/
def walk (root : String) : FsTree → List (String × List String)
  | .dir files subdirs => (root, files) :: walkList root subdirs
/-- The walks of the subdirectories, in order. -/
def walkList (root : String) : List (String × FsTree) → List (String × List String)
  | [] => []
  | (name, d) :: rest => walk (root ++ "/" ++ name) d ++ walkList root rest
end

/-- `str.endswith`: the last characters of `s` are exactly `suffix`. -/
def strEndsWith (s suffix : String) : Bool :=
  s.toList.drop (s.toList.length - suffix.toList.length) = suffix.toList

/-- `os.path.relpath full source` for the paths this walk constructs: strip
the `source ++ "/"` prefix. -/
def relpath (full source : String) : String :=
  String.mk (full.toList.drop (source.toList.length + 1))

/-- `create_tar_file` from `src/main.py`, as the archive names it stores:
walk the tree from the source directory, `continue` past any root whose
path ends in `".venv"`, and add every file of the other roots under its
path relative to the source directory. -/
def create_tar_file (source_dir : String) (tree : FsTree) : List String :=
  (walk source_dir tree).flatMap (fun rootFiles =>
    if strEndsWith rootFiles.1 ".venv" then []
    else rootFiles.2.map (fun file => relpath (rootFiles.1 ++ "/" ++ file) source_dir))

/-! ## The packaging step (`prepare_training_code_on_s3`, C4)

The step's interaction with the machine, made explicit: whether archive
creation succeeds, raises after `tarfile.open` created the file, or raises
before creating it; and whether the upload succeeds.  The state carried
through is whether the archive file exists on disk. -/

/-- How `create_tar_file` can end. -/
inductive CreateOutcome where
  | ok
  | raiseAfterOpen
  | raiseBeforeOpen
deriving DecidableEq, Repr

/-- How `upload_data` can end. -/
inductive UploadOutcome where
  | ok (location : String)
  | raise
deriving DecidableEq, Repr

/-- `os.remove`: the file is gone afterwards; removing a missing file
raises `FileNotFoundError`. -/
def osRemove (fileExists : Bool) : Bool × Option PyErr :=
  (false, if fileExists then none else some .fileNotFoundError)

/-- `prepare_training_code_on_s3` from `src/main.py`: `try` the archive
creation and the upload, and remove the archive file in the `finally`
block.  Returns the step's result (an exception raised in `finally`
replaces a pending one, as in Python) and whether the archive file exists
afterwards. -/
def prepare_training_code_on_s3 (co : CreateOutcome) (uo : UploadOutcome)
    (fileExists0 : Bool) : Except PyErr String × Bool :=
  let afterCreate : Bool × Option PyErr :=
    match co with
    | .ok => (true, none)
    | .raiseAfterOpen => (true, some .tarCreateError)
    | .raiseBeforeOpen => (fileExists0, some .tarCreateError)
  let bodyResult : Except PyErr String × Bool :=
    match afterCreate with
    | (fs, some e) => (.error e, fs)
    | (fs, none) =>
        match uo with
        | .ok location => (.ok location, fs)
        | .raise => (.error .uploadError, fs)
  match bodyResult with
  | (res, fs) =>
      match osRemove fs with
      | (fs2, some e) => (.error e, fs2)
      | (fs2, none) => (res, fs2)

/-! ## The registry authenticator (`login_to_ecr`, C5 and C10)

One authorization-data record of the registry response.  The token field
is represented by its base64-decoded text (`base64.b64decode` then UTF-8
decoding of a well-formed token is a bijection onto that text, and the
claims here concern field presence and the colon split, not the base64
alphabet). -/

/-- One record of `response["authorizationData"]`. -/
structure AuthData where
  authorizationToken : Option String
  proxyEndpoint : Option String

/-- The record `login_to_ecr` returns. -/
structure DockerAuthConfig where
  username : String
  password : String
  registry : String
deriving DecidableEq, Repr

/-- `str.split` on the colon separator, over the character list. -/
def splitColonChars : List Char → List (List Char)
  | [] => [[]]
  | c :: rest =>
      if c = ':' then [] :: splitColonChars rest
      else
        match splitColonChars rest with
        | [] => [[c]]
        | g :: gs => (c :: g) :: gs

/-- `token.split(":")` on a string. -/
def splitColon (s : String) : List String :=
  (splitColonChars s.toList).map String.mk

/-- `login_to_ecr` from `src/main.py`, over the response records: index
the first record (`IndexError` if there is none), require the token field
(`ECRLoginError` if absent), unpack the decoded token as
`username, password = ....split(":")` (`ValueError` unless it splits in
exactly two), then require the endpoint field (`ECRLoginError` if absent)
and return the credential record. -/
def login_to_ecr (authorizationData : List AuthData) : Except PyErr DockerAuthConfig :=
  match authorizationData.head? with
  | none => .error .indexError
  | some authData =>
      match authData.authorizationToken with
      | none => .error (.ecrLoginError "No authorizationToken in response")
      | some token =>
          match splitColon token with
          | [username, password] =>
              match authData.proxyEndpoint with
              | none => .error (.ecrLoginError "No proxyEndpoint in response")
              | some registry => .ok ⟨username, password, registry⟩
          | _ => .error .valueError

/-! ## The image pusher (`push_docker_image`, C6) -/

/-- The error payload a push chunk may carry. -/
structure ErrDetail where
  message : String
deriving DecidableEq, Repr

/-- One decoded chunk of the push stream: its error payload, if any, and
its progress text, if any (ignored by the code except for logging). -/
structure PushChunk where
  errorDetail : Option ErrDetail
  status : Option String := none
deriving DecidableEq, Repr

/-- `push_docker_image` from `src/main.py`, over the chunk stream: walk
the chunks in order; at the first chunk carrying `errorDetail`, raise
`RuntimeError` with that chunk's message.  Returns the outcome and the
chunks actually consumed from the stream. -/
def push_docker_image : List PushChunk → Option PyErr × List PushChunk
  | [] => (none, [])
  | chunk :: rest =>
      match chunk.errorDetail with
      | some d => (some (.runtimeError d.message), [chunk])
      | none =>
          match push_docker_image rest with
          | (outcome, consumed) => (outcome, chunk :: consumed)

/-! ## The settings loader (`SagemakerTrainingSettings`, C7)

The five environment variables the settings class reads, and the loader
pydantic-settings derives from the class declaration: the four fields
without defaults are required (their absence is collected into one validation
error), and `RUN_ID` falls back to the timestamp the default factory
formats from the current time. -/

/-- The relevant slice of the process environment. -/
structure Env where
  AWS_S3_BUCKET : Option String
  AWS_SM_EXECUTION_ROLE_ARN : Option String
  AWS_ECR_REPOSITORY : Option String
  IMAGE_TAG : Option String
  RUN_ID : Option String

/-- The loaded settings. -/
structure SagemakerTrainingSettings where
  AWS_S3_BUCKET : String
  AWS_SM_EXECUTION_ROLE_ARN : String
  AWS_ECR_REPOSITORY : String
  IMAGE_TAG : String
  RUN_ID : String
deriving DecidableEq, Repr

/-- The names of the required variables absent from the environment. -/
def missingSettings (env : Env) : List String :=
  (if env.AWS_S3_BUCKET.isNone then ["AWS_S3_BUCKET"] else [])
    ++ (if env.AWS_SM_EXECUTION_ROLE_ARN.isNone then ["AWS_SM_EXECUTION_ROLE_ARN"] else [])
    ++ (if env.AWS_ECR_REPOSITORY.isNone then ["AWS_ECR_REPOSITORY"] else [])
    ++ (if env.IMAGE_TAG.isNone then ["IMAGE_TAG"] else [])

/-- Loading `SagemakerTrainingSettings()` from the environment; `nowStamp`
is the string the `RUN_ID` default factory formats from the clock
(`datetime.now().strftime` with the timestamp layout). -/
def loadSettings (env : Env) (nowStamp : String) : Except PyErr SagemakerTrainingSettings :=
  match env.AWS_S3_BUCKET, env.AWS_SM_EXECUTION_ROLE_ARN,
      env.AWS_ECR_REPOSITORY, env.IMAGE_TAG with
  | some bucket, some role, some repo, some tag =>
      .ok ⟨bucket, role, repo, tag, env.RUN_ID.getD nowStamp⟩
  | _, _, _, _ => .error (.validationError (missingSettings env))

/-! ## The image preparer (`prepare_training_image`, C8)

The docker-side operations as an effect trace, with their outcomes given
by the world: what `prepare_training_image` runs, in order, and what it
returns. -/

/-- One docker-side operation of the build-and-push path. -/
inductive DockerEffect where
  | login
  | build (imageUri : String)
  | push (imageUri : String)
deriving DecidableEq, Repr

/-- The outcomes the environment deals the three operations. -/
structure DockerWorld where
  loginResult : Except PyErr DockerAuthConfig
  buildResult : Except PyErr Unit
  pushResult : Except PyErr Unit

/-- `build_docker_image` from `src/main.py`: tag the build with
`repository:tag` and return that reference. -/
def build_docker_image (repository tag : String) : String :=
  repository ++ ":" ++ tag

/-- `build_and_push_image` from `src/main.py`: log in, build, push, and
return the image reference; any step's exception aborts the sequence.
Returns the result together with the operations actually performed. -/
def build_and_push_image (w : DockerWorld) (repository tag : String) :
    Except PyErr String × List DockerEffect :=
  match w.loginResult with
  | .error e => (.error e, [.login])
  | .ok _ =>
      let uri := build_docker_image repository tag
      match w.buildResult with
      | .error e => (.error e, [.login, .build uri])
      | .ok _ =>
          match w.pushResult with
          | .error e => (.error e, [.login, .build uri, .push uri])
          | .ok _ => (.ok uri, [.login, .build uri, .push uri])

/-- `prepare_training_image` from `src/main.py`: build and push when the
flag is set, otherwise just assemble the `repository:tag` reference with
no operation performed. -/
def prepare_training_image (w : DockerWorld) (s : SagemakerTrainingSettings)
    (buildImage : Bool) : Except PyErr String × List DockerEffect :=
  if buildImage then build_and_push_image w s.AWS_ECR_REPOSITORY s.IMAGE_TAG
  else (.ok (s.AWS_ECR_REPOSITORY ++ ":" ++ s.IMAGE_TAG), [])
/-- Whether a result is the authentication-specific error kind. -/
def isEcrLoginError {α : Type} : Except PyErr α → Bool
  | .error (.ecrLoginError _) => true
  | _ => false
/-- A sample failing directory tree: a virtual environment with one file
directly in `.venv` and one file in a subdirectory of it. -/
def venvTree : FsTree :=
  .dir ["train.py"] [(".venv", .dir ["activate"] [("lib", .dir ["pkg.py"] [])])]

/-- A sample hyperparameter mapping exercising every value shape. -/
def demoHp : List (String × PyJson) :=
  [("epochs", .pyInt 20),
   ("base_lr_negexp", .pyInt (-4)),
   ("layers", .pyList [.pyInt 128, .pyInt 64, .pyNone]),
   ("opts", .pyDict [("amp", .pyBool true), ("note", .pyStr "quote \" and 𝄞 music")])]

/-! ## Round-trip: characters and digits -/

/-- `Char.ofNat` at a valid scalar value keeps that value. -/
theorem toNat_ofNat_valid (n : Nat) (h : n.isValidChar) : (Char.ofNat n).toNat = n := by
  rw [Char.ofNat, dif_pos h]
  rfl

/-- Every `Char` holds a scalar value: below the surrogate block, or between
it and `0x110000`. -/
theorem charScalar (c : Char) : c.toNat < 55296 ∨ (57344 ≤ c.toNat ∧ c.toNat < 1114112) := by
  have h := c.valid
  unfold UInt32.isValidChar at h
  rcases h with h | ⟨h1, h2⟩
  · exact Or.inl h
  · refine Or.inr ⟨?_, ?_⟩
    · have ha : (57343 : Nat) < c.val.toNat := h1
      exact ha
    · have hb : c.val.toNat < (1114112 : Nat) := h2
      exact hb

/-- Two characters with the same scalar value are equal. -/
theorem charEqOfToNat {c d : Char} (h : c.toNat = d.toNat) : c = d := by
  have := congrArg Char.ofNat h
  rwa [Char.ofNat_toNat, Char.ofNat_toNat] at this

/-- A digit character is produced by `Char.ofNat (48 + d)` for `d < 10`;
its scalar value is what it was built from, and `isDig` holds. -/
theorem digCharSpec (d : Nat) (h : d < 10) :
    (Char.ofNat (48 + d)).toNat = 48 + d ∧ isDig (Char.ofNat (48 + d)) = true := by
  have hv : (48 + d).isValidChar := Or.inl (by omega)
  have ht := toNat_ofNat_valid (48 + d) hv
  refine ⟨ht, ?_⟩
  simp [isDig, ht]
  omega

/-- `natCharsAux` does not look at fuel beyond the number of digits. -/
theorem natCharsAuxIrrel : ∀ f g n : Nat, n < f → n < g → natCharsAux f n = natCharsAux g n := by
  intro f
  induction f with
  | zero => intro g n h; omega
  | succ f ih =>
      intro g n hf hg
      cases g with
      | zero => omega
      | succ g =>
          by_cases h10 : n < 10
          · simp [natCharsAux, h10]
          · have hn : 0 < n := by omega
            have hd : n / 10 < n := Nat.div_lt_self hn (by omega)
            simp only [natCharsAux, if_neg h10]
            rw [ih g (n / 10) (by omega) (by omega)]

/-- The recurrence `natChars` satisfies, with the fuel gone. -/
theorem natCharsUnfold (n : Nat) :
    natChars n = if n < 10 then [Char.ofNat (48 + n % 10)]
                 else natChars (n / 10) ++ [Char.ofNat (48 + n % 10)] := by
  have step : natCharsAux (n + 1) n
      = if n < 10 then [Char.ofNat (48 + n % 10)]
        else natCharsAux n (n / 10) ++ [Char.ofNat (48 + n % 10)] := rfl
  by_cases h10 : n < 10
  · simp [natChars, step, h10]
  · have hn : 0 < n := by omega
    rw [natChars, step, if_neg h10, if_neg h10, natChars]
    congr 1
    exact natCharsAuxIrrel n (n / 10 + 1) (n / 10) (by omega) (by omega)

/-- A digit run is never empty. -/
theorem natCharsNeNil (n : Nat) : natChars n ≠ [] := by
  rw [natCharsUnfold]
  by_cases h10 : n < 10 <;> simp [h10]

/-- Every character of a digit run is a digit. -/
theorem natCharsDigits (n : Nat) : ∀ c ∈ natChars n, isDig c = true := by
  induction n using Nat.strong_induction_on with
  | _ n ih =>
      rw [natCharsUnfold]
      by_cases h10 : n < 10
      · simp only [if_pos h10, List.mem_singleton]
        rintro c rfl
        exact (digCharSpec (n % 10) (by omega)).2
      · simp only [if_neg h10, List.mem_append, List.mem_singleton]
        rintro c (hc | rfl)
        · have hn : 0 < n := by omega
          exact ih (n / 10) (Nat.div_lt_self hn (by omega)) c hc
        · exact (digCharSpec (n % 10) (by omega)).2

/-- Folding the digit recurrence back, with any accumulator. -/
theorem digitsValAppendOne (ds : List Char) (c : Char) :
    digitsVal (ds ++ [c]) = 10 * digitsVal ds + (c.toNat - 48) := by
  simp [digitsVal, List.foldl_append]

/-- A digit run reads back as the number it was printed from. -/
theorem digitsValNatChars (n : Nat) : digitsVal (natChars n) = n := by
  induction n using Nat.strong_induction_on with
  | _ n ih =>
      rw [natCharsUnfold]
      by_cases h10 : n < 10
      · simp only [if_pos h10]
        have := (digCharSpec (n % 10) (by omega)).1
        simp [digitsVal, this]
        omega
      · have hn : 0 < n := by omega
        rw [if_neg h10, digitsValAppendOne, ih (n / 10) (Nat.div_lt_self hn (by omega)),
            (digCharSpec (n % 10) (by omega)).1]
        omega


/-- `grabDigits` takes nothing from a non-digit head. -/
theorem grabDigitsStop (cs : List Char) (h : digBreak cs = true) : grabDigits cs = ([], cs) := by
  cases cs with
  | nil => rfl
  | cons c t =>
      simp only [digBreak, Bool.not_eq_true'] at h
      simp [grabDigits, h]

/-- `grabDigits` consumes exactly a leading digit run. -/
theorem grabDigitsRun (ds : List Char) (rest : List Char)
    (hds : ∀ c ∈ ds, isDig c = true) (hrest : digBreak rest = true) :
    grabDigits (ds ++ rest) = (ds, rest) := by
  induction ds with
  | nil => simpa using grabDigitsStop rest hrest
  | cons c t ih =>
      have hc : isDig c = true := hds c (by simp)
      have ht := ih (fun x hx => hds x (by simp [hx]))
      simp [grabDigits, hc, ht]

/-! ## Round-trip: string escapes -/

/-- `hexDig` and `hexDigVal` are inverse on one hex digit. -/
theorem hexDigSpec (d : Nat) (h : d < 16) : hexDigVal (hexDig d) = some d := by
  have hmod : d % 16 = d := Nat.mod_eq_of_lt h
  by_cases h10 : d < 10
  · have ht := toNat_ofNat_valid (48 + d) (Or.inl (by omega))
    rw [hexDig, if_pos h10, hmod, hexDigVal, if_pos (by omega)]
    congr 1
    omega
  · have ht := toNat_ofNat_valid (87 + d) (Or.inl (by omega))
    rw [hexDig, if_neg h10, hmod, hexDigVal, if_neg (by omega), if_pos (by omega)]
    congr 1
    omega

/-- Four printed hex digits read back as the value they were printed from. -/
theorem hex4ValSpec (n : Nat) (h : n < 65536) :
    hex4Val (hexDig (n / 4096 % 16)) (hexDig (n / 256 % 16))
      (hexDig (n / 16 % 16)) (hexDig (n % 16)) = some n := by
  rw [hex4Val, hexDigSpec _ (Nat.mod_lt _ (by omega)), hexDigSpec _ (Nat.mod_lt _ (by omega)),
      hexDigSpec _ (Nat.mod_lt _ (by omega)), hexDigSpec _ (Nat.mod_lt _ (by omega))]
  simp only []
  congr 1
  omega


/-- `scanStr` on an unescaped printable character just takes it. -/
theorem scanStrPlain (c : Char) (rest : List Char)
    (h1 : c ≠ '\\') (h2 : c ≠ '"') (h3 : 32 ≤ c.toNat) :
    scanStr (c :: rest) = consDecoded c (scanStr rest) := by
  rw [scanStr.eq_def]
  split
  case h_1 heq => simp at heq
  case h_2 heq =>
    injection heq with hc hr
    exact absurd hc h2
  case h_3 heq =>
    injection heq with hc hr
    exact absurd hc h1
  case h_4 heq =>
    injection heq with hc hr
    exact absurd hc h1
  case h_5 heq =>
    injection heq with hc hr
    subst hc
    subst hr
    rw [if_neg (by omega)]
    cases scanStr rest with
    | none => rfl
    | some p => cases p; rfl


/-- Scanning one escaped character undoes `escChar`, whatever follows. -/
theorem scanStrEsc (c : Char) (rest : List Char) :
    scanStr (escChar c ++ rest) = consDecoded c (scanStr rest) := by
  by_cases hbs : c = '\\'
  · subst hbs
    simp [escChar, scanStr, escDecode, consDecoded]
  by_cases hq : c = '"'
  · subst hq
    simp [escChar, scanStr, escDecode, consDecoded]
  by_cases h8 : c.toNat = 8
  · have hc : Char.ofNat 8 = c :=
      charEqOfToNat (by rw [toNat_ofNat_valid 8 (Or.inl (by omega)), h8])
    rw [escChar, if_neg hbs, if_neg hq, if_pos h8, ← hc]
    simp [scanStr, escDecode, consDecoded]
  by_cases h9 : c.toNat = 9
  · have hc : '\t' = c := charEqOfToNat (by rw [h9]; rfl)
    rw [escChar, if_neg hbs, if_neg hq, if_neg h8, if_pos h9, ← hc]
    simp [scanStr, escDecode, consDecoded]
  by_cases h10 : c.toNat = 10
  · have hc : '\n' = c := charEqOfToNat (by rw [h10]; rfl)
    rw [escChar, if_neg hbs, if_neg hq, if_neg h8, if_neg h9, if_pos h10, ← hc]
    simp [scanStr, escDecode, consDecoded]
  by_cases h12 : c.toNat = 12
  · have hc : Char.ofNat 12 = c :=
      charEqOfToNat (by rw [toNat_ofNat_valid 12 (Or.inl (by omega)), h12])
    rw [escChar, if_neg hbs, if_neg hq, if_neg h8, if_neg h9, if_neg h10, if_pos h12, ← hc]
    simp [scanStr, escDecode, consDecoded]
  by_cases h13 : c.toNat = 13
  · have hc : '\r' = c := charEqOfToNat (by rw [h13]; rfl)
    rw [escChar, if_neg hbs, if_neg hq, if_neg h8, if_neg h9, if_neg h10, if_neg h12,
        if_pos h13, ← hc]
    simp [scanStr, escDecode, consDecoded]
  by_cases hpr : 32 ≤ c.toNat ∧ c.toNat ≤ 126
  · rw [escChar, if_neg hbs, if_neg hq, if_neg h8, if_neg h9, if_neg h10, if_neg h12,
        if_neg h13, if_pos hpr]
    simpa using scanStrPlain c rest hbs hq hpr.1
  by_cases hbmp : c.toNat < 65536
  · rw [escChar, if_neg hbs, if_neg hq, if_neg h8, if_neg h9, if_neg h10, if_neg h12,
        if_neg h13, if_neg hpr, if_pos hbmp]
    have hval := hex4ValSpec c.toNat hbmp
    have h1 : ¬(55296 ≤ c.toNat ∧ c.toNat < 56320) := by
      rcases charScalar c with h | h <;> omega
    have h2 : ¬(56320 ≤ c.toNat ∧ c.toNat < 57344) := by
      rcases charScalar c with h | h <;> omega
    simp only [hex4, List.cons_append, List.nil_append]
    simp only [scanStr, hval, if_neg h1, if_neg h2, Char.ofNat_toNat]
    cases scanStr rest with
    | none => rfl
    | some p => cases p; rfl
  · rw [escChar, if_neg hbs, if_neg hq, if_neg h8, if_neg h9, if_neg h10, if_neg h12,
        if_neg h13, if_neg hpr, if_neg hbmp]
    rcases charScalar c with hlo | ⟨hhi, hmax⟩
    · omega
    have hm := Nat.mod_lt (c.toNat - 65536) (show 0 < 1024 by omega)
    have hv1 : 55296 + (c.toNat - 65536) / 1024 < 65536 := by omega
    have hv2 : 56320 + (c.toNat - 65536) % 1024 < 65536 := by omega
    have hx := hex4ValSpec _ hv1
    have hy := hex4ValSpec _ hv2
    have h1 : 55296 ≤ 55296 + (c.toNat - 65536) / 1024
        ∧ 55296 + (c.toNat - 65536) / 1024 < 56320 := by omega
    have h2 : 56320 ≤ 56320 + (c.toNat - 65536) % 1024
        ∧ 56320 + (c.toNat - 65536) % 1024 < 57344 := by omega
    have harith : 65536 + (55296 + (c.toNat - 65536) / 1024 - 55296) * 1024
        + (56320 + (c.toNat - 65536) % 1024 - 56320) = c.toNat := by omega
    simp only [hex4, List.cons_append, List.nil_append, List.append_assoc]
    simp only [scanStr, hx, hy, if_pos h1, if_pos h2, harith, Char.ofNat_toNat]
    cases scanStr rest with
    | none => rfl
    | some p => cases p; rfl

/-- Scanning a fully escaped character run stops exactly at the closing
quote and returns the original characters. -/
theorem scanStrFlat (l : List Char) (rest : List Char) :
    scanStr (l.flatMap escChar ++ '"' :: rest) = some (l, rest) := by
  induction l with
  | nil => simp [scanStr]
  | cons c t ih =>
      rw [List.flatMap_cons, List.append_assoc, scanStrEsc, ih]
      rfl

/-! ## Round-trip: heads, whitespace, numbers -/

/-- Rebuilding a string from its character list is the identity. -/
theorem strMkToList (s : String) : String.mk s.toList = s := by
  cases s
  rfl

/-- `dropWs` keeps a list whose head is not whitespace. -/
theorem dropWsNoWs {c : Char} (l : List Char) (h : jsonWs c = false) :
    dropWs (c :: l) = c :: l := by
  simp [dropWs, h]

/-- `dropWs` swallows a leading space. -/
theorem dropWsSpace (l : List Char) : dropWs (' ' :: l) = dropWs l := by
  simp [dropWs, jsonWs]

/-- A digit is not whitespace. -/
theorem digitNotWs {c : Char} (h : isDig c = true) : jsonWs c = false := by
  simp only [isDig, Bool.and_eq_true, decide_eq_true_eq] at h
  simp only [jsonWs, Bool.or_eq_false_iff, decide_eq_false_iff_not]
  refine ⟨⟨⟨?_, ?_⟩, ?_⟩, ?_⟩ <;> (rintro rfl; exact absurd h (by decide))

/-- A digit is none of the characters that open another JSON token or
close a composite, so the parser's final branch handles it. -/
theorem digitNotDelim {c : Char} (h : isDig c = true) :
    c ≠ 'n' ∧ c ≠ 't' ∧ c ≠ 'f' ∧ c ≠ '"' ∧ c ≠ '[' ∧ c ≠ '{' ∧ c ≠ '-'
      ∧ c ≠ ']' ∧ c ≠ '}' ∧ c ≠ ',' := by
  simp only [isDig, Bool.and_eq_true, decide_eq_true_eq] at h
  refine ⟨?_, ?_, ?_, ?_, ?_, ?_, ?_, ?_, ?_, ?_⟩ <;> (rintro rfl; exact absurd h (by decide))

/-- A digit run starts with a digit. -/
theorem natCharsCons (m : Nat) : ∃ c t, natChars m = c :: t ∧ isDig c = true := by
  cases h : natChars m with
  | nil => exact absurd h (natCharsNeNil m)
  | cons c t => exact ⟨c, t, rfl, natCharsDigits m c (h ▸ List.mem_cons_self c t)⟩

/-- `readVal` ignores one leading space. -/
theorem readValSpace (f : Nat) (l : List Char) :
    readVal (f + 1) (' ' :: l) = readVal (f + 1) l := by
  rw [readVal, readVal, dropWsSpace]

/-- On a digit-headed input, `readVal` parses a number through
`grabDigits`. -/
theorem readValDigit (f : Nat) (c : Char) (r : List Char) (hc : isDig c = true) :
    readVal (f + 1) (c :: r)
      = some (.pyInt (digitsVal (grabDigits (c :: r)).1), (grabDigits (c :: r)).2) := by
  obtain ⟨hn, ht, hf, hq, hbk, hbc, hms, _, _, _⟩ := digitNotDelim hc
  rw [readVal, dropWsNoWs r (digitNotWs hc)]
  split
  case h_1 heq =>
    injection heq with hx hy
    exact absurd hx hn
  case h_2 heq =>
    injection heq with hx hy
    exact absurd hx ht
  case h_3 heq =>
    injection heq with hx hy
    exact absurd hx hf
  case h_4 heq =>
    injection heq with hx hy
    exact absurd hx hq
  case h_5 heq =>
    injection heq with hx hy
    exact absurd hx hbk
  case h_6 heq =>
    injection heq with hx hy
    exact absurd hx hbc
  case h_7 heq =>
    injection heq with hx hy
    exact absurd hx hms
  case h_8 heq =>
    injection heq with hx hy
    subst hx
    subst hy
    rw [if_pos hc]
  case h_9 x heq => simp at heq

/-- `readVal` on a `null` literal. -/
theorem readValNull (f : Nat) (r : List Char) :
    readVal (f + 1) ('n' :: 'u' :: 'l' :: 'l' :: r) = some (.pyNone, r) := by
  rw [readVal, dropWsNoWs _ (by decide)]
  rfl

/-- `readVal` on a `true` literal. -/
theorem readValTrue (f : Nat) (r : List Char) :
    readVal (f + 1) ('t' :: 'r' :: 'u' :: 'e' :: r) = some (.pyBool true, r) := by
  rw [readVal, dropWsNoWs _ (by decide)]
  rfl

/-- `readVal` on a `false` literal. -/
theorem readValFalse (f : Nat) (r : List Char) :
    readVal (f + 1) ('f' :: 'a' :: 'l' :: 's' :: 'e' :: r) = some (.pyBool false, r) := by
  rw [readVal, dropWsNoWs _ (by decide)]
  rfl

/-- `readVal` on an opening quote delegates to the string scanner. -/
theorem readValQuote (f : Nat) (r : List Char) :
    readVal (f + 1) ('"' :: r)
      = (match scanStr r with
         | none => none
         | some (cs, r2) => some (.pyStr (String.mk cs), r2)) := by
  rw [readVal, dropWsNoWs _ (by decide)]
  rfl

/-- `readVal` on a minus sign parses a negative integer. -/
theorem readValMinus (f : Nat) (l : List Char) :
    readVal (f + 1) ('-' :: l)
      = (match grabDigits l with
         | ([], _) => none
         | (ds, r2) => some (.pyInt (-(digitsVal ds : Int)), r2)) := by
  rw [readVal, dropWsNoWs _ (by decide)]
  rfl

/-- `readVal` on an opening bracket delegates to the element parser. -/
theorem readValBracket (f : Nat) (l : List Char) :
    readVal (f + 1) ('[' :: l)
      = (match dropWs l with
         | ']' :: r2 => some (.pyList [], r2)
         | other =>
             match readItems f other with
             | none => none
             | some (xs, r2) => some (.pyList xs, r2)) := by
  rw [readVal, dropWsNoWs _ (by decide)]
  rfl

/-- `readVal` on an opening brace delegates to the entry parser. -/
theorem readValBrace (f : Nat) (l : List Char) :
    readVal (f + 1) ('{' :: l)
      = (match dropWs l with
         | '}' :: r2 => some (.pyDict [], r2)
         | other =>
             match readEntries f other with
             | none => none
             | some (es, r2) => some (.pyDict es, r2)) := by
  rw [readVal, dropWsNoWs _ (by decide)]
  rfl

/-- An integer's printed form reads back as that integer when the input
cannot extend the digit run. -/
theorem readValInt (f : Nat) (i : Int) (rest : List Char) (hrest : digBreak rest = true) :
    readVal (f + 1) (intChars i ++ rest) = some (.pyInt i, rest) := by
  have hgd : grabDigits (natChars i.natAbs ++ rest) = (natChars i.natAbs, rest) :=
    grabDigitsRun _ _ (natCharsDigits _) hrest
  obtain ⟨c, t, hct, hdc⟩ := natCharsCons i.natAbs
  by_cases hneg : i < 0
  · rw [intChars, if_pos hneg, List.cons_append, readValMinus, hgd, hct]
    show some (PyJson.pyInt (-(digitsVal (c :: t) : Int)), rest) = some (PyJson.pyInt i, rest)
    rw [← hct, digitsValNatChars]
    have harith : -(i.natAbs : Int) = i := by omega
    rw [harith]
  · rw [intChars, if_neg hneg, hct, List.cons_append, readValDigit f c (t ++ rest) hdc]
    have hgd2 : grabDigits (c :: (t ++ rest)) = (c :: t, rest) := by
      have h := grabDigitsRun (c :: t) rest (by rw [← hct]; exact natCharsDigits _) hrest
      simpa using h
    rw [hgd2]
    show some (PyJson.pyInt (digitsVal (c :: t) : Int), rest) = some (PyJson.pyInt i, rest)
    rw [← hct, digitsValNatChars]
    have harith : ((i.natAbs : Nat) : Int) = i := by omega
    rw [harith]

/-- Every serialized value starts with a character that is not whitespace
and closes nothing: the parser never mistakes it for an end of input. -/
theorem dumpValHead (v : PyJson) :
    ∃ c t, dumpVal v = c :: t ∧ jsonWs c = false ∧ c ≠ ']' ∧ c ≠ '}' := by
  cases v with
  | pyNone => refine ⟨'n', _, rfl, ?_, ?_, ?_⟩ <;> decide
  | pyBool b =>
      cases b with
      | true => refine ⟨'t', _, rfl, ?_, ?_, ?_⟩ <;> decide
      | false => refine ⟨'f', _, rfl, ?_, ?_, ?_⟩ <;> decide
  | pyStr s => refine ⟨'"', _, rfl, ?_, ?_, ?_⟩ <;> decide
  | pyList items =>
      cases items with
      | nil => refine ⟨'[', _, rfl, ?_, ?_, ?_⟩ <;> decide
      | cons x xs => refine ⟨'[', _, rfl, ?_, ?_, ?_⟩ <;> decide
  | pyDict entries =>
      cases entries with
      | nil => refine ⟨'{', _, rfl, ?_, ?_, ?_⟩ <;> decide
      | cons e es => refine ⟨'{', _, rfl, ?_, ?_, ?_⟩ <;> decide
  | pyInt i =>
      by_cases hneg : i < 0
      · refine ⟨'-', natChars i.natAbs, ?_, by decide, by decide, by decide⟩
        simp [dumpVal, intChars, hneg]
      · obtain ⟨c, t, hct, hdc⟩ := natCharsCons i.natAbs
        obtain ⟨_, _, _, _, _, _, _, hrb, hcb, _⟩ := digitNotDelim hdc
        refine ⟨c, t, ?_, digitNotWs hdc, hrb, hcb⟩
        simp [dumpVal, intChars, hneg, hct]

/-- The bracket branch reduces to the element parser when the content does
not open with `]`. -/
theorem readValBracketCons (f : Nat) (c : Char) (t : List Char)
    (hws : jsonWs c = false) (hrb : c ≠ ']') :
    readVal (f + 1) ('[' :: c :: t)
      = (match readItems f (c :: t) with
         | none => none
         | some (xs, r2) => some (.pyList xs, r2)) := by
  rw [readValBracket, dropWsNoWs _ hws]
  split
  case h_1 heq =>
    injection heq with hx hy
    exact absurd hx hrb
  case h_2 => rfl

/-- The brace branch reduces to the entry parser when the content does not
open with `}`. -/
theorem readValBraceCons (f : Nat) (c : Char) (t : List Char)
    (hws : jsonWs c = false) (hcb : c ≠ '}') :
    readVal (f + 1) ('{' :: c :: t)
      = (match readEntries f (c :: t) with
         | none => none
         | some (es, r2) => some (.pyDict es, r2)) := by
  rw [readValBrace, dropWsNoWs _ hws]
  split
  case h_1 heq =>
    injection heq with hx hy
    exact absurd hx hcb
  case h_2 => rfl

/-- One step of the element parser at successor fuel. -/
theorem readItemsStep (f : Nat) (input : List Char) :
    readItems (f + 1) input
      = (match readVal f input with
         | none => none
         | some (v, r) =>
             match dropWs r with
             | ']' :: r2 => some ([v], r2)
             | ',' :: r2 =>
                 match readItems f (dropWs r2) with
                 | none => none
                 | some (vs, r3) => some (v :: vs, r3)
             | _ => none) := rfl

/-- One step of the entry parser at successor fuel. -/
theorem readEntriesStep (f : Nat) (input : List Char) :
    readEntries (f + 1) input
      = (match dropWs input with
         | '"' :: r =>
             match scanStr r with
             | none => none
             | some (kcs, r1) =>
                 match dropWs r1 with
                 | ':' :: r2 =>
                     match readVal f r2 with
                     | none => none
                     | some (v, r3) =>
                         match dropWs r3 with
                         | '}' :: r4 => some ([(String.mk kcs, v)], r4)
                         | ',' :: r4 =>
                             match readEntries f (dropWs r4) with
                             | none => none
                             | some (es, r5) => some ((String.mk kcs, v) :: es, r5)
                         | _ => none
                 | _ => none
         | _ => none) := rfl

/-- The serialized form of a nonempty list: first element, then the
remaining elements behind the `", "` separator. -/
theorem dumpItemsEq (x : PyJson) (xs : List PyJson) :
    dumpItems (x :: xs)
      = dumpVal x ++ (if xs.isEmpty then [] else ',' :: ' ' :: dumpItems xs) := by
  cases xs with
  | nil => simp [dumpItems]
  | cons y ys => simp [dumpItems]

/-- The serialized form of a nonempty dict, in the same shape. -/
theorem dumpEntriesEq (k : String) (v : PyJson) (es : List (String × PyJson)) :
    dumpEntries ((k, v) :: es)
      = (dumpStr k ++ ':' :: ' ' :: dumpVal v)
        ++ (if es.isEmpty then [] else ',' :: ' ' :: dumpEntries es) := by
  cases es with
  | nil => simp [dumpEntries]
  | cons e es2 => simp [dumpEntries]

/-- `dropWs` fixes a bracket-headed input. -/
theorem dropWsRb (l : List Char) : dropWs (']' :: l) = ']' :: l := dropWsNoWs l (by decide)

/-- `dropWs` fixes a brace-headed input. -/
theorem dropWsCb (l : List Char) : dropWs ('}' :: l) = '}' :: l := dropWsNoWs l (by decide)

/-- `dropWs` fixes a comma-headed input. -/
theorem dropWsComma (l : List Char) : dropWs (',' :: l) = ',' :: l := dropWsNoWs l (by decide)

/-- `dropWs` fixes a colon-headed input. -/
theorem dropWsColon (l : List Char) : dropWs (':' :: l) = ':' :: l := dropWsNoWs l (by decide)

/-- `dropWs` fixes a quote-headed input. -/
theorem dropWsQuote (l : List Char) : dropWs ('"' :: l) = '"' :: l := dropWsNoWs l (by decide)

mutual
/-- Parsing a serialized value consumes exactly it, for any remaining input
that cannot extend a number. -/
theorem rtVal : ∀ (v : PyJson) (fuel : Nat) (rest : List Char),
    (dumpVal v).length < fuel → digBreak rest = true →
    readVal fuel (dumpVal v ++ rest) = some (v, rest)
  | _, 0, _, hf, _ => absurd hf (Nat.not_lt_zero _)
  | .pyNone, fuel + 1, rest, _, _ => by
      have hd : dumpVal PyJson.pyNone ++ rest = 'n' :: 'u' :: 'l' :: 'l' :: rest := by
        simp [dumpVal]
      rw [hd, readValNull]
  | .pyBool true, fuel + 1, rest, _, _ => by
      have hd : dumpVal (PyJson.pyBool true) ++ rest = 't' :: 'r' :: 'u' :: 'e' :: rest := by
        simp [dumpVal]
      rw [hd, readValTrue]
  | .pyBool false, fuel + 1, rest, _, _ => by
      have hd : dumpVal (PyJson.pyBool false) ++ rest
          = 'f' :: 'a' :: 'l' :: 's' :: 'e' :: rest := by
        simp [dumpVal]
      rw [hd, readValFalse]
  | .pyInt i, fuel + 1, rest, _, hr => by
      have hd : dumpVal (PyJson.pyInt i) ++ rest = intChars i ++ rest := by
        simp [dumpVal]
      rw [hd, readValInt fuel i rest hr]
  | .pyStr s, fuel + 1, rest, _, _ => by
      have hd : dumpVal (PyJson.pyStr s) ++ rest
          = '"' :: (s.toList.flatMap escChar ++ '"' :: rest) := by
        simp [dumpVal, dumpStr]
      rw [hd, readValQuote]
      simp only [scanStrFlat, strMkToList]
  | .pyList [], fuel + 1, rest, _, _ => by
      have hd : dumpVal (PyJson.pyList []) ++ rest = '[' :: ']' :: rest := by
        simp [dumpVal, dumpItems]
      rw [hd, readValBracket, dropWsRb]
      rfl
  | .pyList (x :: xs), fuel + 1, rest, hf, _ => by
      obtain ⟨c, t, hct, hws, hrb, _⟩ := dumpValHead x
      have hlen : (dumpItems (x :: xs)).length + 1 < fuel := by
        have hl : (dumpVal (PyJson.pyList (x :: xs))).length
            = (dumpItems (x :: xs)).length + 2 := by
          simp [dumpVal]
        omega
      have hshape : dumpItems (x :: xs) ++ ']' :: rest
          = c :: (t ++ ((if xs.isEmpty then [] else ',' :: ' ' :: dumpItems xs) ++ ']' :: rest)) := by
        rw [dumpItemsEq, hct]
        simp
      have hd : dumpVal (PyJson.pyList (x :: xs)) ++ rest
          = '[' :: (dumpItems (x :: xs) ++ ']' :: rest) := by
        simp [dumpVal]
      have h2 := rtItems x xs fuel rest hlen
      rw [hd, hshape, readValBracketCons fuel c _ hws hrb, ← hshape]
      simp only [h2]
  | .pyDict [], fuel + 1, rest, _, _ => by
      have hd : dumpVal (PyJson.pyDict []) ++ rest = '{' :: '}' :: rest := by
        simp [dumpVal, dumpEntries]
      rw [hd, readValBrace, dropWsCb]
      rfl
  | .pyDict ((k, v) :: es), fuel + 1, rest, hf, _ => by
      have hlen : (dumpEntries ((k, v) :: es)).length + 1 < fuel := by
        have hl : (dumpVal (PyJson.pyDict ((k, v) :: es))).length
            = (dumpEntries ((k, v) :: es)).length + 2 := by
          simp [dumpVal]
        omega
      have htail : dumpEntries ((k, v) :: es) ++ '}' :: rest
          = '"' :: (k.toList.flatMap escChar
              ++ '"' :: (':' :: ' ' :: (dumpVal v
                  ++ ((if es.isEmpty then [] else ',' :: ' ' :: dumpEntries es)
                      ++ '}' :: rest)))) := by
        rw [dumpEntriesEq]
        simp [dumpStr]
      have hd : dumpVal (PyJson.pyDict ((k, v) :: es)) ++ rest
          = '{' :: (dumpEntries ((k, v) :: es) ++ '}' :: rest) := by
        simp [dumpVal]
      have h2 := rtEntries (k, v) es fuel rest hlen
      rw [hd, htail, readValBraceCons fuel '"' _ (by decide) (by decide), ← htail]
      simp only [h2]
termination_by v _ _ _ _ => sizeOf v

/-- Parsing serialized list elements up to the closing bracket recovers
the elements. -/
theorem rtItems : ∀ (x : PyJson) (xs : List PyJson) (fuel : Nat) (rest : List Char),
    (dumpItems (x :: xs)).length + 1 < fuel →
    readItems fuel (dumpItems (x :: xs) ++ ']' :: rest) = some (x :: xs, rest)
  | _, _, 0, _, hf => absurd hf (Nat.not_lt_zero _)
  | x, [], fuel + 1, rest, hf => by
      have hx : (dumpVal x).length < fuel := by
        have hl : (dumpItems [x]).length = (dumpVal x).length := by simp [dumpItems]
        omega
      have hone : dumpItems [x] ++ ']' :: rest = dumpVal x ++ ']' :: rest := by
        simp [dumpItems]
      have h1 := rtVal x fuel (']' :: rest) hx (by rfl)
      rw [hone, readItemsStep]
      simp only [h1, dropWsRb]
  | x, y :: ys, fuel + 1, rest, hf => by
      obtain ⟨c2, t2, hct2, hws2, _, _⟩ := dumpValHead y
      have hl : (dumpItems (x :: y :: ys)).length
          = (dumpVal x).length + 2 + (dumpItems (y :: ys)).length := by
        simp [dumpItems]
        try omega
      have hx : (dumpVal x).length < fuel := by omega
      have hys : (dumpItems (y :: ys)).length + 1 < fuel := by
        have hy1 : 1 ≤ (dumpVal x).length := by
          obtain ⟨c0, t0, hc0, _, _, _⟩ := dumpValHead x
          simp [hc0]
        omega
      have hsh : dumpItems (x :: y :: ys) ++ ']' :: rest
          = dumpVal x ++ (',' :: ' ' :: (dumpItems (y :: ys) ++ ']' :: rest)) := by
        simp [dumpItems]
      have hid : dropWs (dumpItems (y :: ys) ++ ']' :: rest)
          = dumpItems (y :: ys) ++ ']' :: rest := by
        rw [dumpItemsEq, hct2]
        simp only [List.cons_append, List.append_assoc]
        exact dropWsNoWs _ hws2
      have h1 := rtVal x fuel (',' :: ' ' :: (dumpItems (y :: ys) ++ ']' :: rest)) hx (by rfl)
      have h2 := rtItems y ys fuel rest hys
      rw [hsh, readItemsStep]
      simp only [h1, dropWsComma, dropWsSpace, hid, h2]
termination_by x xs _ _ _ => sizeOf x + sizeOf xs

/-- Parsing serialized dict entries up to the closing brace recovers the
entries. -/
theorem rtEntries : ∀ (kv : String × PyJson) (es : List (String × PyJson))
    (fuel : Nat) (rest : List Char),
    (dumpEntries (kv :: es)).length + 1 < fuel →
    readEntries fuel (dumpEntries (kv :: es) ++ '}' :: rest) = some (kv :: es, rest)
  | _, _, 0, _, hf => absurd hf (Nat.not_lt_zero _)
  | (k, v), [], fuel + 1, rest, hf => by
      have hl : (dumpEntries [(k, v)]).length
          = (k.toList.flatMap escChar).length + 4 + (dumpVal v).length := by
        simp [dumpEntries, dumpStr]
        try omega
      have hv : (dumpVal v).length < fuel := by omega
      have hshape : dumpEntries [(k, v)] ++ '}' :: rest
          = '"' :: (k.toList.flatMap escChar
              ++ '"' :: (':' :: ' ' :: (dumpVal v ++ '}' :: rest))) := by
        simp [dumpEntries, dumpStr]
      cases fuel with
      | zero => exact absurd hv (Nat.not_lt_zero _)
      | succ g =>
          have h1 := rtVal v (g + 1) ('}' :: rest) hv (by rfl)
          rw [hshape, readEntriesStep, dropWsQuote]
          simp only [scanStrFlat, dropWsColon, readValSpace, h1, dropWsCb, strMkToList]
  | (k, v), e :: es, fuel + 1, rest, hf => by
      have hl : (dumpEntries ((k, v) :: e :: es)).length
          = (k.toList.flatMap escChar).length + 4 + (dumpVal v).length + 2
            + (dumpEntries (e :: es)).length := by
        simp [dumpEntries, dumpStr]
        try omega
      have hv : (dumpVal v).length < fuel := by omega
      have hes : (dumpEntries (e :: es)).length + 1 < fuel := by omega
      have hshape : dumpEntries ((k, v) :: e :: es) ++ '}' :: rest
          = '"' :: (k.toList.flatMap escChar
              ++ '"' :: (':' :: ' ' :: (dumpVal v
                  ++ ',' :: ' ' :: (dumpEntries (e :: es) ++ '}' :: rest)))) := by
        simp [dumpEntries, dumpStr]
      have hid : dropWs (dumpEntries (e :: es) ++ '}' :: rest)
          = dumpEntries (e :: es) ++ '}' :: rest := by
        obtain ⟨ek, ev⟩ := e
        rw [dumpEntriesEq]
        simp only [dumpStr, List.cons_append, List.append_assoc]
        exact dropWsQuote _
      cases fuel with
      | zero => exact absurd hv (Nat.not_lt_zero _)
      | succ g =>
          have h1 := rtVal v (g + 1) (',' :: ' ' :: (dumpEntries (e :: es) ++ '}' :: rest))
            hv (by rfl)
          have h2 := rtEntries e es (g + 1) rest hes
          rw [hshape, readEntriesStep, dropWsQuote]
          simp only [scanStrFlat, dropWsColon, readValSpace, h1, dropWsComma, dropWsSpace,
            hid, h2, strMkToList]
termination_by kv es _ _ _ => sizeOf kv + sizeOf es
end

/-- The text `dumps` produces, as the character list `loads` will scan. -/
theorem dumpsToList (v : PyJson) : (dumps v).toList = dumpVal v := rfl

/-- The codec round-trip law: deserializing a serialized value recovers it
exactly. -/
theorem loadsDumps (v : PyJson) : loads (dumps v) = some v := by
  have h := rtVal v ((dumpVal v).length + 1) [] (Nat.lt_succ_self _) (by rfl)
  rw [List.append_nil] at h
  rw [loads, dumpsToList, h]
  rfl



/-! ## Supporting facts for the claims -/


/-- `splitColonChars` always yields at least one group. -/
theorem splitColonCharsNeNil (l : List Char) : splitColonChars l ≠ [] := by
  cases l with
  | nil => simp [splitColonChars]
  | cons c rest =>
      by_cases hc : c = ':'
      · simp [splitColonChars, hc]
      · simp only [splitColonChars, if_neg hc]
        cases splitColonChars rest <;> simp

/-- The number of groups a colon split yields: one more than the number of
colons. -/
theorem splitColonCharsCount (l : List Char) :
    (splitColonChars l).length = l.count ':' + 1 := by
  induction l with
  | nil => rfl
  | cons c rest ih =>
      by_cases hc : c = ':'
      · subst hc
        simp [splitColonChars, List.count_cons, ih]
      · have hne := splitColonCharsNeNil rest
        simp only [splitColonChars, if_neg hc]
        cases hsp : splitColonChars rest with
        | nil => exact absurd hsp hne
        | cons g gs =>
            rw [hsp] at ih
            simp only [List.length_cons] at ih
            simp [List.count_cons, hc, ih]


/-! ## The claims -/

/-- C1: the spec says archiving excludes every file under a
virtual-environment subtree.  The code only skips roots whose path ends in
`".venv"`, and `os.walk` still descends into that subtree, so a file in a
subdirectory of `.venv` is archived: on `venvTree`, the archive keeps
`.venv/lib/pkg.py` while dropping only `.venv/activate`. -/
theorem create_tar_file_venv_leak :
    create_tar_file "trainer" venvTree = ["train.py", ".venv/lib/pkg.py"] := by decide

/-- C2: the outgoing argument set carries the `max_run` and `max_wait`
keys exactly when spot instances are enabled: both keys are popped when
`use_spot_instances` is false, whatever the fields held, and both are
present when it is true. -/
theorem to_estimator_args_duration_keys (c : EstimatorConfig) :
    (c.to_estimator_args.lookup "max_run"
        = if c.use_spot_instances then some (optArg c.max_run) else none)
    ∧ (c.to_estimator_args.lookup "max_wait"
        = if c.use_spot_instances then some (optArg c.max_wait) else none) := by
  obtain ⟨ep, ic, it, bj, spot, mr, mw, hp⟩ := c
  cases spot <;> exact ⟨rfl, rfl⟩

/-- C3: for every hyperparameter mapping of JSON-representable values
(string keys per the declared type; dict keys distinct, as in any Python
dict), serializing each value with `json_encode_hyperparameters` and then
JSON-deserializing each result yields the original mapping. -/
theorem json_encode_hyperparameters_roundtrip (hp : List (String × PyJson))
    (hwf : wfEntries hp = true) :
    (json_encode_hyperparameters hp).map (fun kv => (kv.1, loads kv.2))
      = hp.map (fun kv => (kv.1, some kv.2)) := by
  induction hp with
  | nil => rfl
  | cons e es ih =>
      obtain ⟨k, v⟩ := e
      simp only [wfEntries, Bool.and_eq_true] at hwf
      have ihe := ih hwf.2
      simp only [json_encode_hyperparameters, List.map_cons] at ihe ⊢
      rw [loadsDumps, ihe]

/-- Witness for C3 at a concrete mapping. -/
theorem json_encode_hyperparameters_roundtrip_witness :
    wfEntries demoHp = true
    ∧ (json_encode_hyperparameters demoHp).map (fun kv => (kv.1, loads kv.2))
        = demoHp.map (fun kv => (kv.1, some kv.2)) :=
  ⟨by decide, json_encode_hyperparameters_roundtrip demoHp (by decide)⟩

/-- C4: whatever the archive creation and the upload do — succeed, raise
after the archive file was created, or raise before — the archive file
does not exist when the packaging step returns or propagates its
exception. -/
theorem prepare_training_code_cleanup (co : CreateOutcome) (uo : UploadOutcome)
    (fileExists0 : Bool) :
    (prepare_training_code_on_s3 co uo fileExists0).2 = false := by
  cases co <;> cases uo <;> cases fileExists0 <;> rfl

/-- C5 counterexample: a record that has the token field but no endpoint
field need not raise `ECRLoginError` — with a decoded token holding no
colon, the unpack raises the generic `ValueError` first. -/
theorem login_to_ecr_endpoint_counterexample :
    isEcrLoginError (login_to_ecr [⟨some "nocolonhere", none⟩]) = false
    ∧ login_to_ecr [⟨some "nocolonhere", none⟩] = .error .valueError := by
  exact ⟨by rfl, by rfl⟩

/-- C5 as amended: a first record without the token field raises
`ECRLoginError`; a first record whose token is present and unpacks into a
username and a password but which lacks the endpoint field also raises
`ECRLoginError`. -/
theorem login_to_ecr_error_kinds (ad : AuthData) (rest : List AuthData) :
    (ad.authorizationToken = none →
        login_to_ecr (ad :: rest)
          = .error (.ecrLoginError "No authorizationToken in response"))
    ∧ (∀ token username password, ad.authorizationToken = some token →
        splitColon token = [username, password] → ad.proxyEndpoint = none →
        login_to_ecr (ad :: rest)
          = .error (.ecrLoginError "No proxyEndpoint in response")) := by
  constructor
  · intro h
    simp [login_to_ecr, h]
  · intro token username password ht hs hp
    simp [login_to_ecr, ht, hs, hp]

/-- Witness for C5 at two concrete responses. -/
theorem login_to_ecr_error_kinds_witness :
    login_to_ecr [⟨none, none⟩]
        = .error (.ecrLoginError "No authorizationToken in response")
    ∧ login_to_ecr [⟨some "AWS:secret", none⟩]
        = .error (.ecrLoginError "No proxyEndpoint in response") :=
  ⟨(login_to_ecr_error_kinds ⟨none, none⟩ []).1 rfl,
   (login_to_ecr_error_kinds ⟨some "AWS:secret", none⟩ []).2
     "AWS:secret" "AWS" "secret" rfl (by decide) rfl⟩

/-- C6: the push fails with a `RuntimeError` carrying the first error
chunk's message, consuming the stream only up to that chunk, even when
clean chunks precede it; a stream with no error chunk completes without
raising, fully consumed. -/
theorem push_docker_image_error_handling :
    (∀ (pre post : List PushChunk) (chunk : PushChunk) (msg : String),
        (∀ ch ∈ pre, ch.errorDetail = none) → chunk.errorDetail = some ⟨msg⟩ →
        push_docker_image (pre ++ chunk :: post)
          = (some (.runtimeError msg), pre ++ [chunk]))
    ∧ (∀ stream : List PushChunk, (∀ ch ∈ stream, ch.errorDetail = none) →
        push_docker_image stream = (none, stream)) := by
  constructor
  · intro pre post chunk msg hpre herr
    induction pre with
    | nil => simp [push_docker_image, herr]
    | cons a t ih =>
        have ha : a.errorDetail = none := hpre a (by simp)
        have ht := ih (fun x hx => hpre x (by simp [hx]))
        simp [push_docker_image, ha, ht]
  · intro stream hall
    induction stream with
    | nil => rfl
    | cons a t ih =>
        have ha : a.errorDetail = none := hall a (by simp)
        have ht := ih (fun x hx => hall x (by simp [hx]))
        simp [push_docker_image, ha, ht]

/-- Witness for C6 on a concrete stream with one success chunk before the
error chunk and one chunk after it, and on a clean stream. -/
theorem push_docker_image_error_handling_witness :
    push_docker_image
        [⟨none, some "Pushing"⟩, ⟨some ⟨"denied"⟩, none⟩, ⟨none, some "later"⟩]
      = (some (.runtimeError "denied"), [⟨none, some "Pushing"⟩, ⟨some ⟨"denied"⟩, none⟩])
    ∧ push_docker_image [⟨none, some "Pushed"⟩] = (none, [⟨none, some "Pushed"⟩]) := by
  constructor
  · have h := push_docker_image_error_handling.1
      [⟨none, some "Pushing"⟩] [⟨none, some "later"⟩] ⟨some ⟨"denied"⟩, none⟩ "denied"
      (by decide) rfl
    simpa using h
  · have h := push_docker_image_error_handling.2 [⟨none, some "Pushed"⟩] (by decide)
    exact h

/-- C7: loading the settings fails with the validation error when any of
the four required variables is absent, while an absent run identifier is
no failure: the loaded `RUN_ID` is then the generated timestamp string. -/
theorem loadSettings_required_fields (env : Env) (nowStamp : String) :
    ((env.AWS_S3_BUCKET = none ∨ env.AWS_SM_EXECUTION_ROLE_ARN = none
        ∨ env.AWS_ECR_REPOSITORY = none ∨ env.IMAGE_TAG = none) →
      loadSettings env nowStamp = .error (.validationError (missingSettings env)))
    ∧ (∀ bucket role repo tag, env.AWS_S3_BUCKET = some bucket →
        env.AWS_SM_EXECUTION_ROLE_ARN = some role →
        env.AWS_ECR_REPOSITORY = some repo → env.IMAGE_TAG = some tag →
        env.RUN_ID = none →
        loadSettings env nowStamp = .ok ⟨bucket, role, repo, tag, nowStamp⟩) := by
  constructor
  · intro h
    obtain ⟨b, r, rp, t, run⟩ := env
    cases b <;> cases r <;> cases rp <;> cases t <;> simp_all [loadSettings]
  · intro bucket role repo tag hb hr hrp ht hrun
    simp [loadSettings, hb, hr, hrp, ht, hrun]

/-- Witness for C7: one environment missing the bucket, one complete but
for the run identifier. -/
theorem loadSettings_required_fields_witness :
    loadSettings ⟨none, some "role", some "repo", some "tag", none⟩ "20260101T000000000000"
        = .error (.validationError ["AWS_S3_BUCKET"])
    ∧ loadSettings ⟨some "bkt", some "role", some "repo", some "tag", none⟩
          "20260101T000000000000"
        = .ok ⟨"bkt", "role", "repo", "tag", "20260101T000000000000"⟩ :=
  ⟨(loadSettings_required_fields ⟨none, some "role", some "repo", some "tag", none⟩
      "20260101T000000000000").1 (Or.inl rfl),
   (loadSettings_required_fields ⟨some "bkt", some "role", some "repo", some "tag", none⟩
      "20260101T000000000000").2 "bkt" "role" "repo" "tag" rfl rfl rfl rfl rfl⟩

/-- C8: with the build flag off, `prepare_training_image` performs no
docker operation and returns exactly the `repository:tag` reference; with
the flag on and every operation succeeding, it returns the same reference
after logging in, building and pushing. -/
theorem prepare_training_image_flag (w : DockerWorld) (s : SagemakerTrainingSettings) :
    (prepare_training_image w s false
        = (.ok (s.AWS_ECR_REPOSITORY ++ ":" ++ s.IMAGE_TAG), []))
    ∧ (∀ auth, w.loginResult = .ok auth → w.buildResult = .ok () → w.pushResult = .ok () →
        prepare_training_image w s true
          = (.ok (s.AWS_ECR_REPOSITORY ++ ":" ++ s.IMAGE_TAG),
             [.login, .build (s.AWS_ECR_REPOSITORY ++ ":" ++ s.IMAGE_TAG),
              .push (s.AWS_ECR_REPOSITORY ++ ":" ++ s.IMAGE_TAG)])) := by
  constructor
  · rfl
  · intro auth hl hb hp
    simp [prepare_training_image, build_and_push_image, build_docker_image, hl, hb, hp]

/-- Witness for C8 at a concrete world and settings. -/
theorem prepare_training_image_flag_witness :
    prepare_training_image ⟨.ok ⟨"user", "pw", "reg"⟩, .ok (), .ok ()⟩
        ⟨"bkt", "role", "repo", "tag", "run"⟩ false
      = (.ok "repo:tag", [])
    ∧ prepare_training_image ⟨.ok ⟨"user", "pw", "reg"⟩, .ok (), .ok ()⟩
        ⟨"bkt", "role", "repo", "tag", "run"⟩ true
      = (.ok "repo:tag", [.login, .build "repo:tag", .push "repo:tag"]) :=
  ⟨(prepare_training_image_flag ⟨.ok ⟨"user", "pw", "reg"⟩, .ok (), .ok ()⟩
      ⟨"bkt", "role", "repo", "tag", "run"⟩).1,
   (prepare_training_image_flag ⟨.ok ⟨"user", "pw", "reg"⟩, .ok (), .ok ()⟩
      ⟨"bkt", "role", "repo", "tag", "run"⟩).2 ⟨"user", "pw", "reg"⟩ rfl rfl rfl⟩

/-- C9: `to_estimator_args` leaves the configuration object unchanged —
the source writes only to the dumped dict — so two successive calls
return equal argument sets. -/
theorem to_estimator_args_frame (c : EstimatorConfig) :
    c.to_estimator_args_run.2 = c
    ∧ (c.to_estimator_args_run.2).to_estimator_args_run.1 = c.to_estimator_args_run.1 :=
  ⟨rfl, rfl⟩

/-- C10: a present token whose decoded text does not hold exactly one
colon makes the unpack raise the generic `ValueError` (not
`ECRLoginError`); conversely, the call can only succeed when the decoded
token holds exactly one colon, splitting into a username and a
password. -/
theorem login_to_ecr_token_unpack (ad : AuthData) (rest : List AuthData) (token : String)
    (htok : ad.authorizationToken = some token) :
    (token.toList.count ':' ≠ 1 → login_to_ecr (ad :: rest) = .error .valueError)
    ∧ (exceptOk (login_to_ecr (ad :: rest)) = true → token.toList.count ':' = 1) := by
  have hlen : (splitColon token).length = token.toList.count ':' + 1 := by
    simp [splitColon, splitColonCharsCount]
  have key : token.toList.count ':' ≠ 1 → login_to_ecr (ad :: rest) = .error .valueError := by
    intro hne
    have hlen2 : (splitColon token).length ≠ 2 := by omega
    rcases hsp : splitColon token with _ | ⟨a, rest2⟩
    · simp [login_to_ecr, htok, hsp]
    · rcases rest2 with _ | ⟨b, rest3⟩
      · simp [login_to_ecr, htok, hsp]
      · rcases rest3 with _ | ⟨c2, t⟩
        · rw [hsp] at hlen2
          simp at hlen2
        · simp [login_to_ecr, htok, hsp]
  refine ⟨key, ?_⟩
  intro hok
  by_contra hne
  rw [key hne] at hok
  simp [exceptOk] at hok

/-- Witness for C10 at a token whose decoded text holds two colons. -/
theorem login_to_ecr_token_unpack_witness :
    ("user:pass:extra".toList.count ':' ≠ 1)
    ∧ login_to_ecr [⟨some "user:pass:extra", some "reg"⟩] = .error .valueError :=
  ⟨by decide,
   (login_to_ecr_token_unpack ⟨some "user:pass:extra", some "reg"⟩ [] "user:pass:extra"
      rfl).1 (by decide)⟩
